import Mathlib

/-
Verification of the arxiv-nest-go feed-ingestion pipeline.

Shallow embedding of the Go sources:
  internal/arxiv/parser.go  (extractArxivID, cleanText, parseTime, ToPaper, ToPapers)
  internal/arxiv/client.go  (buildSearchQuery, FetchByIDs)
  internal/db/queries.go    (UpsertPaper) over the schema in internal/db/schema.sql
  cmd/server/main.go        (startScheduler)

Strings are modelled at the rune level (Lean `Char` = Go `rune`); Go slices
become Lean lists; Go `(T, error)` returns become `Option`/`Except`.
-/

namespace ArxivNest

/-! ### Character classes

`arxivIDRegex = (\d{4}\.\d{4,5})(v\d+)?$` uses RE2 `\d` = `[0-9]`, which is
exactly `Char.isDigit`.  `whitespaceRegex = \s+` uses RE2 `\s` = `[\t\n\f\r ]`.
`strings.TrimSpace` trims by `unicode.IsSpace`, the Unicode White_Space
property. -/

/-- RE2 character class `\s` (= `[\t\n\f\r ]`), used by `whitespaceRegex`. -/
def isGoSpace (c : Char) : Bool :=
  c == ' ' || c == '\t' || c == '\n' || c == '\x0c' || c == '\r'

/-- Go `unicode.IsSpace`: the Unicode White_Space property, the class trimmed
by `strings.TrimSpace`. -/
def isUniSpace (c : Char) : Bool :=
  isGoSpace c || c == '\x0b' || c == '\u0085' || c == '\u00A0' ||
  c == '\u1680' || ('\u2000' ≤ c && c ≤ '\u200A') || c == '\u2028' ||
  c == '\u2029' || c == '\u202F' || c == '\u205F' || c == '\u3000'

/-! ### Identity Normalizer: `extractArxivID` (parser.go lines 151-159)

The Go function returns capture group 1 of
`arxivIDRegex.FindStringSubmatch(idStr)` and `""` when there is no match.
`FindStringSubmatch` scans start positions left to right (leftmost match);
at a given start position, `\d{4,5}` is greedy with backtracking and the `$`
anchor forces the match to end at the end of the string. -/

/-- Take exactly `n` decimal digits from the front of `l` (the regex elements
`\d{4}` and the greedy 5-digit attempt of `\d{4,5}`). -/
def takeDigits : Nat → List Char → Option (List Char × List Char)
  | 0, l => some ([], l)
  | _ + 1, [] => none
  | n + 1, c :: rest =>
    if c.isDigit then
      match takeDigits n rest with
      | some (ds, r) => some (c :: ds, r)
      | none => none
    else none

/-- Does the whole list match the regex fragment `(v\d+)?$`? -/
def vTail (l : List Char) : Bool :=
  match l with
  | [] => true
  | c :: rest => c == 'v' && !rest.isEmpty && rest.all (fun d => d.isDigit)

/-- Match `(\d{4}\.\d{4,5})(v\d+)?$` against the whole of `l` from a fixed
start position (the `$` anchor makes any candidate cover `l` exactly), with
`\d{4,5}` greedy-then-backtracking as in Go's regexp engine.  Returns capture
group 1 on success. -/
def matchAt (l : List Char) : Option (List Char) :=
  match takeDigits 4 l with
  | none => none
  | some (d4, rest) =>
    match rest with
    | '.' :: rest2 =>
      match takeDigits 5 rest2 with
      | some (d5, rest3) =>
        if vTail rest3 then some (d4 ++ ('.' :: d5))
        else
          match takeDigits 4 rest2 with
          | some (d, r) => if vTail r then some (d4 ++ ('.' :: d)) else none
          | none => none
      | none =>
        match takeDigits 4 rest2 with
        | some (d, r) => if vTail r then some (d4 ++ ('.' :: d)) else none
        | none => none
    | _ => none

/-- Leftmost-match scan of `FindStringSubmatch`: try every start position
from the left and return the first success; the empty suffix cannot match
(`matchAt [] = none`), so stopping at `[]` is faithful. -/
def findIDMatch : List Char → Option (List Char)
  | [] => none
  | c :: rest =>
    match matchAt (c :: rest) with
    | some g => some g
    | none => findIDMatch rest

/-- Go source `extractArxivID` (parser.go 151-159): capture group 1 of the
regex match, or `""` when there is no match. -/
def extractArxivID (s : String) : String :=
  match findIDMatch s.data with
  | some g => String.mk g
  | none => ""

/-! ### Text Normalizer: `cleanText` (parser.go 180-187) -/

/-- Model of `whitespaceRegex.ReplaceAllString text " "`: every maximal run of `\s`
characters becomes a single `' '` (the run's characters are dropped except the
last, which is rewritten to `' '`). -/
def collapseWs : List Char → List Char
  | [] => []
  | [c] => if isGoSpace c then [' '] else [c]
  | a :: b :: rest =>
    if isGoSpace a && isGoSpace b then collapseWs (b :: rest)
    else (if isGoSpace a then ' ' else a) :: collapseWs (b :: rest)

/-- Leading half of `strings.TrimSpace`. -/
def trimLeft (l : List Char) : List Char := l.dropWhile isUniSpace

/-- Trailing half of `strings.TrimSpace`. -/
def trimRight : List Char → List Char
  | [] => []
  | c :: rest =>
    match trimRight rest with
    | [] => if isUniSpace c then [] else [c]
    | r => c :: r

/-- Go `strings.TrimSpace`. -/
def trimSpace (s : String) : String := String.mk (trimLeft (trimRight s.data))

/-- Go source `cleanText` (parser.go 180-187): collapse `\s+` runs to a single
space, then trim leading/trailing Unicode whitespace. -/
def cleanText (s : String) : String :=
  String.mk (trimLeft (trimRight (collapseWs s.data)))

/-! ### Timestamps: `parseTime` (parser.go 161-178)

`parseTime` tries `time.Parse` with three layouts in order: `time.RFC3339`
(`2006-01-02T15:04:05Z07:00`, i.e. `Z` or a `±hh:mm` offset),
`2006-01-02T15:04:05Z` (literal `Z`, UTC only) and
`2006-01-02T15:04:05-07:00` (numeric `±hh:mm` offset only).  The model parses
the common `YYYY-MM-DDThh:mm:ss` core with Go's range validation of the
calendar and clock fields, then the per-layout zone suffix.  Go's tolerance of
an optional fractional-second after the seconds element is not modelled (no
claim mentions sub-second timestamps). -/

/-- A parsed wall-clock time: `time.Time` at second granularity with its fixed
zone offset (minutes east of UTC). -/
structure GoTime where
  year : Nat
  month : Nat
  day : Nat
  hour : Nat
  minute : Nat
  second : Nat
  offsetMin : Int
deriving Repr, DecidableEq

/-- Numeric value of a digit string. -/
def digitsToNat (ds : List Char) : Nat :=
  ds.foldl (fun acc c => 10 * acc + (c.toNat - '0'.toNat)) 0

/-- Gregorian leap-year rule used by Go's date validation. -/
def isLeapYear (y : Nat) : Bool :=
  (y % 4 == 0 && y % 100 != 0) || y % 400 == 0

/-- Days in a month, as validated by `time.Parse`. -/
def daysInMonth (y m : Nat) : Nat :=
  if m == 2 then (if isLeapYear y then 29 else 28)
  else if m == 4 || m == 6 || m == 9 || m == 11 then 30
  else 31

/-- Parse the layout core `2006-01-02T15:04:05` and return the unread zone
suffix, enforcing Go's field ranges. -/
def parseDateTimeCore (l : List Char) : Option (GoTime × List Char) :=
  match takeDigits 4 l with
  | some (ys, '-' :: r1) =>
    match takeDigits 2 r1 with
    | some (ms, '-' :: r2) =>
      match takeDigits 2 r2 with
      | some (ds, 'T' :: r3) =>
        match takeDigits 2 r3 with
        | some (hs, ':' :: r4) =>
          match takeDigits 2 r4 with
          | some (mis, ':' :: r5) =>
            match takeDigits 2 r5 with
            | some (ss, rest) =>
              let y := digitsToNat ys
              let mo := digitsToNat ms
              let d := digitsToNat ds
              let h := digitsToNat hs
              let mi := digitsToNat mis
              let sec := digitsToNat ss
              if 1 ≤ mo && mo ≤ 12 && 1 ≤ d && d ≤ daysInMonth y mo &&
                  h ≤ 23 && mi ≤ 59 && sec ≤ 59 then
                some ({ year := y, month := mo, day := d, hour := h,
                        minute := mi, second := sec, offsetMin := 0 }, rest)
              else none
            | none => none
          | _ => none
        | _ => none
      | _ => none
    | _ => none
  | _ => none

/-- Parse the numeric zone layout element `-07:00` (a `±hh:mm` offset). -/
def parseNumZone (l : List Char) : Option (Int × List Char) :=
  match l with
  | '+' :: r =>
    match takeDigits 2 r with
    | some (hs, ':' :: r2) =>
      match takeDigits 2 r2 with
      | some (ms, rest) =>
        some (Int.ofNat (60 * digitsToNat hs + digitsToNat ms), rest)
      | none => none
    | _ => none
  | '-' :: r =>
    match takeDigits 2 r with
    | some (hs, ':' :: r2) =>
      match takeDigits 2 r2 with
      | some (ms, rest) =>
        some (-Int.ofNat (60 * digitsToNat hs + digitsToNat ms), rest)
      | none => none
    | _ => none
  | _ => none

/-- Go `time.Parse` with layout `time.RFC3339` = `2006-01-02T15:04:05Z07:00`:
the zone is `Z` or `±hh:mm`. -/
def parseRFC3339 (s : String) : Option GoTime :=
  match parseDateTimeCore s.data with
  | some (t, ['Z']) => some t
  | some (t, zone) =>
    match parseNumZone zone with
    | some (off, []) => some { t with offsetMin := off }
    | _ => none
  | none => none

/-- Go `time.Parse` with layout `2006-01-02T15:04:05Z`: a literal `Z`
terminator, UTC only. -/
def parseZFormat (s : String) : Option GoTime :=
  match parseDateTimeCore s.data with
  | some (t, ['Z']) => some t
  | _ => none

/-- Go `time.Parse` with layout `2006-01-02T15:04:05-07:00`: a numeric `±hh:mm`
offset only. -/
def parseOffsetFormat (s : String) : Option GoTime :=
  match parseDateTimeCore s.data with
  | some (t, zone) =>
    match parseNumZone zone with
    | some (off, []) => some { t with offsetMin := off }
    | _ => none
  | none => none

/-- The ordered `formats` slice of `parseTime` (parser.go 164-168). -/
def timeFormats : List (String → Option GoTime) :=
  [parseRFC3339, parseZFormat, parseOffsetFormat]

/-- Go source `parseTime` (parser.go 161-178): try each format in order and
return the first success; `none` models the error return. -/
def parseTime (s : String) : Option GoTime :=
  timeFormats.findSome? (fun f => f s)

/-! ### Feed data model (parser.go 14-52) and entry conversion -/

/-- Go struct `arxiv.Author`. -/
structure Author where
  name : String
deriving Repr, DecidableEq

/-- Go struct `arxiv.Link`: an Atom link with its `href`/`rel`/`type`/`title`
attributes. -/
structure Link where
  href : String
  rel : String
  typeAttr : String
  title : String
deriving Repr, DecidableEq

/-- Go struct `arxiv.Category`. -/
structure EntryCategory where
  term : String
  scheme : String
deriving Repr, DecidableEq

/-- Go struct `arxiv.Entry`: one item of the Atom feed. -/
structure Entry where
  id : String
  title : String
  summary : String
  published : String
  updated : String
  authors : List Author
  links : List Link
  categories : List EntryCategory
deriving Repr, DecidableEq

/-- Go struct `arxiv.Feed`. -/
structure Feed where
  title : String
  id : String
  updated : String
  entries : List Entry
deriving Repr, DecidableEq

/-- Go struct `models.Paper` as filled in by `ToPaper` (the join-populated fields and
`CreatedAt`, which `ToPaper` never sets, live in the storage model below). -/
structure Paper where
  id : String
  title : String
  abstract : String
  authors : String
  categories : String
  publishedAt : GoTime
  updatedAt : GoTime
  pdfUrl : String
  arxivUrl : String
deriving Repr, DecidableEq

/-- The link-scanning loop of `ToPaper` (parser.go 105-113): one pass over the
links with two mutable slots, so a later matching link overwrites an earlier
one; a link with title `pdf` never reaches the `rel == "alternate"` test. -/
def scanLinks (links : List Link) : String × String :=
  links.foldl
    (fun acc link =>
      if link.title = "pdf" then (link.href, acc.2)
      else if link.rel = "alternate" then (acc.1, link.href)
      else acc)
    ("", "")

/-- Go source `(*Entry).ToPaper` (parser.go 74-132); `none` models the error
return (malformed identifier or unparseable timestamp). -/
def ToPaper (e : Entry) : Option Paper :=
  let arxivID := extractArxivID e.id
  if arxivID = "" then none
  else
    match parseTime e.published with
    | none => none
    | some publishedAt =>
      match parseTime e.updated with
      | none => none
      | some updatedAt =>
        let authors := e.authors.map (fun a => trimSpace a.name)
        let categories := e.categories.map (fun c => c.term)
        let urls := scanLinks e.links
        some { id := arxivID
             , title := cleanText e.title
             , abstract := cleanText e.summary
             , authors := String.intercalate ", " authors
             , categories := String.intercalate ", " categories
             , publishedAt := publishedAt
             , updatedAt := updatedAt
             , pdfUrl := urls.1
             , arxivUrl := urls.2 }

/-- Go source `(*Feed).ToPapers` (parser.go 134-149): convert the entries in
order, appending each success and skipping (with a logged warning) each
failure; the function itself never fails. -/
def ToPapers (f : Feed) : List Paper :=
  f.entries.foldl
    (fun papers e =>
      match ToPaper e with
      | none => papers
      | some p => papers ++ [p])
    []

/-! ### Fetch Client (client.go): `buildSearchQuery` and `FetchByIDs` -/

/-- Go source `buildSearchQuery` (client.go 91-127).  `"all:*"` is the arXiv
query expression that matches everything. -/
def buildSearchQuery (categories keywords : List String) : String :=
  let catGroup : List String :=
    match categories.map (fun cat => "cat:" ++ cat) with
    | [] => []
    | [single] => [single]
    | catParts => ["(" ++ String.intercalate " OR " catParts ++ ")"]
  let kwGroup : List String :=
    match keywords.map (fun kw => "all:" ++ kw) with
    | [] => []
    | [single] => [single]
    | kwParts => ["(" ++ String.intercalate " OR " kwParts ++ ")"]
  match catGroup ++ kwGroup with
  | [] => "all:*"
  | parts => String.intercalate " AND " parts

/-- The search expression as §4.4 of the spec words it: category terms
OR-combined and parenthesized iff more than one, keyword terms likewise, the
two non-empty groups AND-combined, and the match-all expression when both
groups are empty.  Written from the spec for comparison with
`buildSearchQuery`. -/
def specOrGroup (pre : String) : List String → Option String
  | [] => none
  | [t] => some (pre ++ t)
  | ts => some ("(" ++ String.intercalate " OR " (ts.map (fun t => pre ++ t)) ++ ")")

/-- Companion of `specOrGroup`: the whole spec-side search expression. -/
def specSearchQuery (categories keywords : List String) : String :=
  match specOrGroup "cat:" categories, specOrGroup "all:" keywords with
  | none, none => "all:*"
  | some g, none => g
  | none, some g => g
  | some g1, some g2 => g1 ++ " AND " ++ g2

/-- An outbound HTTP GET, as assembled by the client. -/
structure HttpRequest where
  url : String
  queryParams : List (String × String)
  userAgent : String
deriving Repr, DecidableEq

/-- The transport's answer: status code and raw body. -/
structure HttpResponse where
  statusCode : Nat
  body : String
deriving Repr, DecidableEq

/-- Constant `apiBaseURL` (client.go 15). -/
def apiBaseURL : String := "http://export.arxiv.org/api/query"

/-- The zero value `&Feed{}` returned by `FetchByIDs` on empty input. -/
def emptyFeed : Feed := { title := "", id := "", updated := "", entries := [] }

/-- Go source `FetchByIDs` (client.go 157-205), with the HTTP transport and
the XML decoder (`ParseFeed`, whose body is Go stdlib `encoding/xml`) passed
in as functions.  The first component is the list of HTTP requests actually
performed, in order; the rate-limit sleep after a successful fetch does not
change any returned value and is not part of this model. -/
def FetchByIDs (http : HttpRequest → HttpResponse)
    (decodeFeed : String → Option Feed) (ids : List String) :
    List HttpRequest × Except String Feed :=
  if ids.isEmpty then ([], Except.ok emptyFeed)
  else
    let idList := String.intercalate "," ids
    let req : HttpRequest :=
      { url := apiBaseURL
      , queryParams := [("id_list", idList)]
      , userAgent := "ArXiv-Go-Nest/1.0" }
    let resp := http req
    if resp.statusCode ≠ 200 then ([req], Except.error "unexpected status code")
    else
      match decodeFeed resp.body with
      | none => ([req], Except.error "failed to parse feed")
      | some feed => ([req], Except.ok feed)

/-! ### Upsert Store (db.go `UpsertPaper` over schema.sql)

The store is modelled relationally: `papers` maps a canonical id to its row
(`created_at` is `DATETIME DEFAULT CURRENT_TIMESTAMP`, modelled as an opaque
`Nat` supplied at insertion time); `library`, `tags` and `paper_tags` are the
curation-owned relations of schema.sql. -/

/-- A row of the `papers` table. -/
structure PaperRow where
  title : String
  abstract : String
  authors : String
  categories : String
  publishedAt : GoTime
  updatedAt : GoTime
  pdfUrl : String
  arxivUrl : String
  createdAt : Nat
deriving Repr, DecidableEq

/-- A row of the `library` table (keyed by paper id). -/
structure LibraryRow where
  isRead : Bool
  savedAt : Nat
deriving Repr, DecidableEq

/-- The relational store of schema.sql. -/
structure DBState where
  papers : String → Option PaperRow
  library : String → Option LibraryRow
  tags : Nat → Option String
  paperTags : String → Nat → Bool

/-- The `papers` row written for `p` with creation timestamp `createdAt`. -/
def paperRowOf (p : Paper) (createdAt : Nat) : PaperRow :=
  { title := p.title
  , abstract := p.abstract
  , authors := p.authors
  , categories := p.categories
  , publishedAt := p.publishedAt
  , updatedAt := p.updatedAt
  , pdfUrl := p.pdfUrl
  , arxivUrl := p.arxivUrl
  , createdAt := createdAt }

/-- Go source `UpsertPaper` (db.go 120-140):
`INSERT INTO papers (id, title, ..., arxiv_url) VALUES (...) ON CONFLICT(id)
DO UPDATE SET title = excluded.title, ..., arxiv_url = excluded.arxiv_url`.
The insert branch fills `created_at` from `DEFAULT CURRENT_TIMESTAMP`
(parameter `now`); the update branch sets every Paper-owned column and does
not mention `created_at`; no other table is touched. -/
def UpsertPaper (now : Nat) (s : DBState) (p : Paper) : DBState :=
  { s with
    papers := fun pid =>
      if pid = p.id then
        some (paperRowOf p
          (match s.papers p.id with
           | some old => old.createdAt
           | none => now))
      else s.papers pid }

/-! ### Scheduler (main.go `startScheduler`, lines 136-162)

The goroutine body is modelled as an event trace.  `sigs` is the sequence of
channel events the `select` statement consumes, in the order the loop observes
them: `tick` for a delivery on `ticker.C`, `stop` for the closed `stopChan`.
Each `runCycle` event is one complete `fetchPapers` call; the goroutine only
consults the channels between cycles, so a stop can never interrupt a cycle
already in progress, and after a consumed stop the loop returns, so no
further cycle starts. -/

/-- A channel event seen by the scheduler's `select`. -/
inductive SchedSignal
  | tick
  | stop
deriving Repr, DecidableEq

/-- An observable action of the scheduler goroutine. -/
inductive SchedEvent
  | warmupSleep
  | runCycle
deriving Repr, DecidableEq

/-- The `for { select ... } }` loop (main.go 147-155): a tick runs one cycle
and loops; a stop stops the ticker and returns, discarding everything after
it; with no signal left the goroutine is still blocked in `select`. -/
def schedLoop : List SchedSignal → List SchedEvent
  | [] => []
  | SchedSignal.tick :: rest => SchedEvent.runCycle :: schedLoop rest
  | SchedSignal.stop :: _ => []

/-- Go source `startScheduler` goroutine (main.go 141-156): sleep 10 seconds,
run one initial cycle, then the `select` loop. -/
def schedulerTrace (sigs : List SchedSignal) : List SchedEvent :=
  SchedEvent.warmupSleep :: SchedEvent.runCycle :: schedLoop sigs

/-! ### Specification-side helpers and concrete test data -/

/-- The href of the last link satisfying `p`, if any: the value a
one-pass-overwrite scan leaves behind. -/
def lastMatchHref (p : Link → Bool) : List Link → Option String
  | [] => none
  | l :: rest =>
    match lastMatchHref p rest with
    | some h => some h
    | none => if p l then some l.href else none

/-- A link that the `ToPaper` scan treats as the PDF/document link. -/
def isPdfLink (l : Link) : Bool := l.title == "pdf"

/-- A link that the `ToPaper` scan treats as the canonical alternate page:
`rel == "alternate"`, and not already claimed by the `title == "pdf"` test. -/
def isAltLink (l : Link) : Bool := l.title != "pdf" && l.rel == "alternate"

/-- Normal form preserved by `collapseWs`: every `\s` character is a plain
space and no two adjacent characters are both `\s`. -/
def goodWs : List Char → Bool
  | [] => true
  | [c] => !isGoSpace c || c == ' '
  | a :: b :: rest =>
    (!isGoSpace a || (a == ' ' && !isGoSpace b)) && goodWs (b :: rest)

/-- The store right after migration: no rows at all. -/
def emptyDB : DBState :=
  { papers := fun _ => none
  , library := fun _ => none
  , tags := fun _ => none
  , paperTags := fun _ _ => false }

/-- A concrete timestamp for test data. -/
def sampleTime : GoTime :=
  { year := 2023, month := 1, day := 25, hour := 12, minute := 0, second := 0,
    offsetMin := 0 }

/-- A concrete paper (the record of `TestUpsertPaper` in queries_test.go). -/
def samplePaper : Paper :=
  { id := "2301.12345"
  , title := "Test Paper"
  , abstract := "Test abstract"
  , authors := "John Doe, Jane Smith"
  , categories := "cs.AI, cs.LG"
  , publishedAt := sampleTime
  , updatedAt := sampleTime
  , pdfUrl := "http://arxiv.org/pdf/2301.12345"
  , arxivUrl := "http://arxiv.org/abs/2301.12345" }

/-- A feed entry whose `published` timestamp matches none of the accepted
formats (everything else is well-formed). -/
def entryBadTime : Entry :=
  { id := "http://arxiv.org/abs/2301.11111v1"
  , title := "Paper 1"
  , summary := "Abstract 1"
  , published := "not-a-timestamp"
  , updated := "2023-01-25T12:00:00Z"
  , authors := [{ name := "Author 1" }]
  , links := []
  , categories := [{ term := "cs.AI", scheme := "" }] }

/-- A fully well-formed feed entry. -/
def entryGood : Entry :=
  { id := "http://arxiv.org/abs/2301.67890v1"
  , title := "Paper 2"
  , summary := "Abstract 2"
  , published := "2023-01-26T12:00:00Z"
  , updated := "2023-01-26T12:00:00Z"
  , authors := [{ name := "Author 2" }]
  , links :=
      [ { href := "http://arxiv.org/abs/2301.67890v1", rel := "alternate"
        , typeAttr := "text/html", title := "" }
      , { href := "http://arxiv.org/pdf/2301.67890v1", rel := "related"
        , typeAttr := "application/pdf", title := "pdf" } ]
  , categories := [{ term := "cs.AI", scheme := "" }] }

/-- The two-entry feed of the skip property: entry 1 has an unparseable
timestamp, entry 2 is well-formed. -/
def twoEntryFeed : Feed :=
  { title := "", id := "", updated := "", entries := [entryBadTime, entryGood] }

/-- A well-formed entry carrying two links that both have title `pdf`. -/
def dupLinkEntry : Entry :=
  { id := "http://arxiv.org/abs/2301.10000v1"
  , title := "t"
  , summary := "s"
  , published := "2023-01-25T12:00:00Z"
  , updated := "2023-01-25T12:00:00Z"
  , authors := []
  , links :=
      [ { href := "http://a.example/first.pdf", rel := "related"
        , typeAttr := "application/pdf", title := "pdf" }
      , { href := "http://b.example/second.pdf", rel := "related"
        , typeAttr := "application/pdf", title := "pdf" } ]
  , categories := [] }

/-- A well-formed entry none of whose links carries either role marker. -/
def noRoleEntry : Entry :=
  { id := "http://arxiv.org/abs/2301.20000v1"
  , title := "t"
  , summary := "s"
  , published := "2023-01-25T12:00:00Z"
  , updated := "2023-01-25T12:00:00Z"
  , authors := []
  , links :=
      [ { href := "http://x.example/page", rel := "related"
        , typeAttr := "text/html", title := "doi" } ]
  , categories := [] }

/-! ### Theorems -/

/-- C6: for every set of categories and keywords, `buildSearchQuery`
OR-combines the category terms (parenthesizing the group only when it has
more than one term), likewise OR-combines the keyword terms, AND-combines
the two non-empty groups, and when both groups are empty produces the
match-all expression `all:*`; i.e. it coincides with the spec-side
`specSearchQuery`. -/
theorem c6_build_search_query (categories keywords : List String) :
    buildSearchQuery categories keywords = specSearchQuery categories keywords := by
  cases categories with
  | nil =>
    cases keywords with
    | nil => rfl
    | cons k ks => cases ks <;> rfl
  | cons c cs =>
    cases cs with
    | nil =>
      cases keywords with
      | nil => rfl
      | cons k ks => cases ks <;> rfl
    | cons c2 cs2 =>
      cases keywords with
      | nil => rfl
      | cons k ks => cases ks <;> rfl

lemma schedLoop_ticks_stop (n : Nat) (post : List SchedSignal) :
    schedLoop (List.replicate n SchedSignal.tick ++ SchedSignal.stop :: post) =
      List.replicate n SchedEvent.runCycle := by
  induction n with
  | zero => rfl
  | succ m ih => simp [List.replicate_succ, schedLoop, ih]

lemma schedLoop_ticks (n : Nat) :
    schedLoop (List.replicate n SchedSignal.tick) =
      List.replicate n SchedEvent.runCycle := by
  induction n with
  | zero => rfl
  | succ m ih => simp [List.replicate_succ, schedLoop, ih]

/-- C9: the scheduler trace starts with the warm-up sleep followed by one
ingestion cycle; consuming `n` ticks and then a stop yields exactly `n`
further complete cycles and nothing after the stop, whatever signals follow
(no further cycle ever starts, and every cycle in the trace is a complete
atomic `runCycle` event — the stop is only consulted between cycles); with
ticks only, every tick yields a cycle, indefinitely. -/
theorem c9_scheduler (sigs : List SchedSignal) (n : Nat) (post : List SchedSignal) :
    (∃ rest, schedulerTrace sigs =
        SchedEvent.warmupSleep :: SchedEvent.runCycle :: rest) ∧
    schedulerTrace (List.replicate n SchedSignal.tick ++ SchedSignal.stop :: post) =
      SchedEvent.warmupSleep :: SchedEvent.runCycle ::
        List.replicate n SchedEvent.runCycle ∧
    schedulerTrace (List.replicate n SchedSignal.tick) =
      SchedEvent.warmupSleep :: SchedEvent.runCycle ::
        List.replicate n SchedEvent.runCycle := by
  refine ⟨⟨schedLoop sigs, rfl⟩, ?_, ?_⟩
  · rw [schedulerTrace, schedLoop_ticks_stop]
  · rw [schedulerTrace, schedLoop_ticks]

/-- C7: `FetchByIDs` on the empty identifier list returns the empty feed
with no error and performs no HTTP request; on a non-empty list it performs
exactly one request whose only query parameter is `id_list` with the
comma-joined identifiers (no `search_query`). -/
theorem c7_fetch_by_ids (http : HttpRequest → HttpResponse)
    (decodeFeed : String → Option Feed) (ids : List String) :
    FetchByIDs http decodeFeed [] = ([], Except.ok emptyFeed) ∧
    (ids ≠ [] →
      (FetchByIDs http decodeFeed ids).1 =
        [{ url := apiBaseURL
         , queryParams := [("id_list", String.intercalate "," ids)]
         , userAgent := "ArXiv-Go-Nest/1.0" }]) := by
  constructor
  · rfl
  · intro h
    have hne : ids.isEmpty = false := by
      cases ids with
      | nil => exact absurd rfl h
      | cons a as => rfl
    unfold FetchByIDs
    rw [hne]
    simp only [Bool.false_eq_true, if_false]
    split
    · rfl
    · split <;> rfl

/-- C7 witness: at a concrete transport and identifier list. -/
theorem c7_fetch_by_ids_witness :
    (FetchByIDs (fun _ => { statusCode := 200, body := "" }) (fun _ => none)
        ["2301.12345", "2301.67890"]).1 =
      [{ url := apiBaseURL
       , queryParams := [("id_list", "2301.12345,2301.67890")]
       , userAgent := "ArXiv-Go-Nest/1.0" }] := by
  have h := (c7_fetch_by_ids (fun _ => { statusCode := 200, body := "" })
    (fun _ => none) ["2301.12345", "2301.67890"]).2 (by decide)
  simpa using h

/-- C1: `UpsertPaper` inserts a fresh `papers` row keyed by `paper.id` when
absent (with `created_at` stamped at insertion); when a row exists it
overwrites every Paper-owned field while keeping `created_at`; rows with
other keys and the whole of the curation-owned state (`library` membership
with its `is_read` flag, `tags`, `paper_tags`) are untouched; and upserting
the same paper twice equals upserting it once. -/
theorem c1_upsert_contract (now later : Nat) (s : DBState) (p : Paper) :
    (s.papers p.id = none →
      (UpsertPaper now s p).papers p.id = some (paperRowOf p now)) ∧
    (∀ old, s.papers p.id = some old →
      (UpsertPaper now s p).papers p.id = some (paperRowOf p old.createdAt)) ∧
    (∀ q, q ≠ p.id → (UpsertPaper now s p).papers q = s.papers q) ∧
    (UpsertPaper now s p).library = s.library ∧
    (UpsertPaper now s p).tags = s.tags ∧
    (UpsertPaper now s p).paperTags = s.paperTags ∧
    UpsertPaper later (UpsertPaper now s p) p = UpsertPaper now s p := by
  refine ⟨?_, ?_, ?_, rfl, rfl, rfl, ?_⟩
  · intro h
    simp [UpsertPaper, h]
  · intro old h
    simp [UpsertPaper, h]
  · intro q hq
    simp [UpsertPaper, hq]
  · unfold UpsertPaper
    congr 1
    funext pid
    by_cases hpid : pid = p.id
    · subst hpid
      simp [paperRowOf]
    · simp [hpid]

/-- C1 witness: insert into the empty store, then re-upsert; the row keeps
its original creation timestamp and the double upsert collapses. -/
theorem c1_upsert_contract_witness :
    (UpsertPaper 5 emptyDB samplePaper).papers samplePaper.id =
      some (paperRowOf samplePaper 5) ∧
    (UpsertPaper 9 (UpsertPaper 5 emptyDB samplePaper) samplePaper).papers
        samplePaper.id = some (paperRowOf samplePaper 5) ∧
    (UpsertPaper 5 emptyDB samplePaper).library "2301.12345" = none := by
  refine ⟨(c1_upsert_contract 5 7 emptyDB samplePaper).1 rfl, ?_, ?_⟩
  · have h2 := ((c1_upsert_contract 9 7 (UpsertPaper 5 emptyDB samplePaper)
      samplePaper).2.1) (paperRowOf samplePaper 5)
      ((c1_upsert_contract 5 7 emptyDB samplePaper).1 rfl)
    simpa using h2
  · have h3 := (c1_upsert_contract 5 7 emptyDB samplePaper).2.2.2.1
    exact congrFun h3 "2301.12345"

lemma toPapers_foldl_aux (l : List Entry) :
    ∀ acc : List Paper,
      l.foldl
        (fun papers e =>
          match ToPaper e with
          | none => papers
          | some p => papers ++ [p]) acc =
        acc ++ l.filterMap ToPaper := by
  induction l with
  | nil => intro acc; simp
  | cons e es ih =>
    intro acc
    cases h : ToPaper e <;>
      simp [List.foldl_cons, h, List.filterMap_cons, ih]

/-- C3: `ToPapers` converts each entry independently, skipping exactly the
entries whose conversion fails and returning the successfully converted
subset (`filterMap ToPaper`); in particular, on the 2-entry feed whose first
entry has an unparseable timestamp and whose second entry is well-formed it
yields exactly 1 paper. -/
theorem c3_to_papers_skips :
    (∀ f : Feed, ToPapers f = f.entries.filterMap ToPaper) ∧
    ToPaper entryBadTime = none ∧
    (ToPaper entryGood).isSome = true ∧
    (ToPapers twoEntryFeed).length = 1 := by
  refine ⟨fun f => ?_, rfl, rfl, rfl⟩
  simpa using toPapers_foldl_aux f.entries []

/-- C5: `parseTime` tries an ordered list of exactly three accepted formats
(RFC3339 with `Z` or numeric offset, literal-`Z` UTC, numeric offset only),
the first matching format winning; it accepts timestamps with and without an
explicit UTC offset; and when no format matches, the entry's conversion
fails (`ToPaper` returns `none`), which `ToPapers` turns into a skip. -/
theorem c5_parse_time_formats (s : String) (e : Entry) :
    timeFormats.length = 3 ∧
    parseTime s =
      ((parseRFC3339 s).orElse fun _ =>
        (parseZFormat s).orElse fun _ => parseOffsetFormat s) ∧
    (parseTime "2023-01-25T12:00:00Z").isSome = true ∧
    (parseTime "2023-01-25T12:00:00+05:30").isSome = true ∧
    parseTime "not-a-timestamp" = none ∧
    (parseTime e.published = none → ToPaper e = none) ∧
    (parseTime e.updated = none → ToPaper e = none) := by
  refine ⟨rfl, ?_, rfl, rfl, rfl, ?_, ?_⟩
  · cases h1 : parseRFC3339 s <;> cases h2 : parseZFormat s <;>
      cases h3 : parseOffsetFormat s <;>
        simp [parseTime, timeFormats, List.findSome?, h1, h2, h3, Option.orElse]
  · intro h
    by_cases hid : extractArxivID e.id = "" <;> simp [ToPaper, hid, h]
  · intro h
    cases hp : parseTime e.published <;>
      by_cases hid : extractArxivID e.id = "" <;>
        simp [ToPaper, hid, h, hp]

/-- C5 witness: the bad-timestamp entry is rejected by every format, and its
conversion fails. -/
theorem c5_parse_time_formats_witness :
    ToPaper entryBadTime = none :=
  (c5_parse_time_formats "x" entryBadTime).2.2.2.2.2.1 rfl

/-- C4 counterexample: on an entry with two links both carrying the document
role marker (title `pdf`), `ToPaper` sets `pdfUrl` to the SECOND link's href,
not the first as the claim states — the single-pass scan overwrites. -/
theorem c4_counterexample :
    (ToPaper dupLinkEntry).map Paper.pdfUrl = some "http://b.example/second.pdf" ∧
    ¬ (ToPaper dupLinkEntry).map Paper.pdfUrl = some "http://a.example/first.pdf" := by
  exact ⟨rfl, by decide⟩

lemma scanLinks_foldl_aux (links : List Link) :
    ∀ x y : String,
      links.foldl
        (fun acc link =>
          if link.title = "pdf" then (link.href, acc.2)
          else if link.rel = "alternate" then (acc.1, link.href)
          else acc) (x, y) =
      ((lastMatchHref isPdfLink links).getD x,
       (lastMatchHref isAltLink links).getD y) := by
  induction links with
  | nil => intro x y; rfl
  | cons l ls ih =>
    intro x y
    by_cases hp : l.title = "pdf"
    · cases hpdf : lastMatchHref isPdfLink ls <;>
        cases halt : lastMatchHref isAltLink ls <;>
          simp [List.foldl_cons, hp, ih, lastMatchHref, isPdfLink, isAltLink,
            hpdf, halt]
    · by_cases ha : l.rel = "alternate"
      · cases hpdf : lastMatchHref isPdfLink ls <;>
          cases halt : lastMatchHref isAltLink ls <;>
            simp [List.foldl_cons, hp, ha, ih, lastMatchHref, isPdfLink,
              isAltLink, hpdf, halt]
      · cases hpdf : lastMatchHref isPdfLink ls <;>
          cases halt : lastMatchHref isAltLink ls <;>
            simp [List.foldl_cons, hp, ha, ih, lastMatchHref, isPdfLink,
              isAltLink, hpdf, halt]

/-- C4 amended: in the single pass over the link list, the LAST link whose
title marks it as the document/PDF becomes `pdfUrl`, and the LAST link whose
rel marks it as the canonical alternate page (and whose title is not `pdf`)
becomes `arxivUrl`; when neither role is present conversion still succeeds
and both fields are empty strings. -/
theorem c4_links_amended :
    (∀ links : List Link,
      scanLinks links =
        ((lastMatchHref isPdfLink links).getD "",
         (lastMatchHref isAltLink links).getD "")) ∧
    (ToPaper noRoleEntry).map Paper.pdfUrl = some "" ∧
    (ToPaper noRoleEntry).map Paper.arxivUrl = some "" :=
  ⟨fun links => scanLinks_foldl_aux links "" "", rfl, rfl⟩

lemma takeDigits_eq_some :
    ∀ {n : Nat} {l ds r : List Char}, takeDigits n l = some (ds, r) →
      l = ds ++ r ∧ ds.length = n ∧ ds.all Char.isDigit = true := by
  intro n
  induction n with
  | zero =>
    intro l ds r h
    simp [takeDigits] at h
    rcases h with ⟨rfl, rfl⟩
    simp
  | succ m ih =>
    intro l ds r h
    cases l with
    | nil => simp [takeDigits] at h
    | cons c cs =>
      rw [takeDigits] at h
      by_cases hc : c.isDigit
      · rw [if_pos hc] at h
        cases hrec : takeDigits m cs with
        | none => rw [hrec] at h; simp at h
        | some pr =>
          obtain ⟨ds0, r0⟩ := pr
          rw [hrec] at h
          simp at h
          obtain ⟨hds, hr⟩ := h
          obtain ⟨hl, hlen, hall⟩ := ih hrec
          subst hds
          subst hr
          subst hl
          refine ⟨by simp, by simp [hlen], by simp [List.all_cons, hc, hall]⟩
      · rw [if_neg hc] at h
        simp at h

lemma takeDigits_append :
    ∀ {ds : List Char} {n : Nat}, ds.length = n → ds.all Char.isDigit = true →
      ∀ r, takeDigits n (ds ++ r) = some (ds, r) := by
  intro ds
  induction ds with
  | nil =>
    intro n hn _ r
    subst hn
    rfl
  | cons c cs ih =>
    intro n hn hall r
    cases n with
    | zero => simp at hn
    | succ m =>
      have hlen : cs.length = m := by simpa using hn
      simp only [List.all_cons, Bool.and_eq_true] at hall
      rw [List.cons_append, takeDigits, if_pos hall.1, ih hlen hall.2 r]

lemma takeDigits_five_none {b c : List Char} (hb : b.length = 4) :
    takeDigits 5 (b ++ ('v' :: c)) = none := by
  cases h : takeDigits 5 (b ++ ('v' :: c)) with
  | none => rfl
  | some pr =>
    obtain ⟨ds, r⟩ := pr
    obtain ⟨heq, hlen, hall⟩ := takeDigits_eq_some h
    exfalso
    have hbt : List.take 5 b = b := List.take_of_length_le (by omega)
    have hdt : List.take 5 ds = ds := List.take_of_length_le (by omega)
    have htk := congrArg (List.take 5) heq
    rw [List.take_append_eq_append_take, List.take_append_eq_append_take,
      hbt, hdt, hb, hlen] at htk
    simp at htk
    have hv : 'v' ∈ ds := by rw [← htk]; simp
    have := List.all_eq_true.mp hall 'v' hv
    exact absurd this (by decide)

lemma vTail_v {c : List Char} (hc : c ≠ []) (hcD : c.all Char.isDigit = true) :
    vTail ('v' :: c) = true := by
  simp [vTail, hcD, List.isEmpty_eq_false.mpr hc]

lemma matchAt_core {a b c : List Char} (ha4 : a.length = 4)
    (haD : a.all Char.isDigit = true) (hb : b.length = 4 ∨ b.length = 5)
    (hbD : b.all Char.isDigit = true) (hc : c ≠ [])
    (hcD : c.all Char.isDigit = true) :
    matchAt (a ++ ('.' :: (b ++ ('v' :: c)))) = some (a ++ ('.' :: b)) := by
  simp only [matchAt, takeDigits_append ha4 haD]
  rcases hb with h4 | h5
  · simp only [takeDigits_five_none h4, takeDigits_append h4 hbD,
      vTail_v hc hcD, if_true]
  · simp only [takeDigits_append h5 hbD, vTail_v hc hcD, if_true]

lemma matchAt_shape {l g : List Char} (h : matchAt l = some g) :
    ∃ d4 d vp, l = d4 ++ ('.' :: (d ++ vp)) ∧ g = d4 ++ ('.' :: d) ∧
      d4.length = 4 ∧ d4.all Char.isDigit = true ∧
      (d.length = 4 ∨ d.length = 5) ∧ d.all Char.isDigit = true ∧
      vTail vp = true := by
  unfold matchAt at h
  split at h
  · exact absurd h (by simp)
  · rename_i d4 rest heq4
    split at h
    · rename_i rest2
      split at h
      · rename_i d5 rest3 heq5
        split at h
        · rename_i hvt
          obtain ⟨hl4, hlen4, hall4⟩ := takeDigits_eq_some heq4
          obtain ⟨hl5, hlen5, hall5⟩ := takeDigits_eq_some heq5
          refine ⟨d4, d5, rest3, ?_, (Option.some.inj h).symm, hlen4, hall4,
            Or.inr hlen5, hall5, hvt⟩
          rw [hl4, hl5]
        · split at h
          · rename_i d r heqf
            split at h
            · rename_i hvt
              obtain ⟨hl4, hlen4, hall4⟩ := takeDigits_eq_some heq4
              obtain ⟨hlf, hlenf, hallf⟩ := takeDigits_eq_some heqf
              refine ⟨d4, d, r, ?_, (Option.some.inj h).symm, hlen4, hall4,
                Or.inl hlenf, hallf, hvt⟩
              rw [hl4, hlf]
            · exact absurd h (by simp)
          · exact absurd h (by simp)
      · split at h
        · rename_i d r heqf
          split at h
          · rename_i hvt
            obtain ⟨hl4, hlen4, hall4⟩ := takeDigits_eq_some heq4
            obtain ⟨hlf, hlenf, hallf⟩ := takeDigits_eq_some heqf
            refine ⟨d4, d, r, ?_, (Option.some.inj h).symm, hlen4, hall4,
              Or.inl hlenf, hallf, hvt⟩
            rw [hl4, hlf]
          · exact absurd h (by simp)
        · exact absurd h (by simp)
    · exact absurd h (by simp)

lemma not_dot_of_digits {l : List Char} (h : l.all Char.isDigit = true) :
    '.' ∉ l := by
  intro hm
  have := List.all_eq_true.mp h '.' hm
  exact absurd this (by decide)

lemma not_dot_of_vTail {vp : List Char} (h : vTail vp = true) : '.' ∉ vp := by
  cases vp with
  | nil => simp
  | cons c rest =>
    simp only [vTail, Bool.and_eq_true, beq_iff_eq] at h
    obtain ⟨⟨hc, _⟩, hall⟩ := h
    subst hc
    intro hm
    rcases List.mem_cons.mp hm with hv | hrest
    · exact absurd hv (by decide)
    · have := List.all_eq_true.mp hall '.' hrest
      exact absurd this (by decide)

lemma last_dot_eq {l1 r1 l2 r2 : List Char}
    (heq : l1 ++ ('.' :: r1) = l2 ++ ('.' :: r2))
    (h1 : '.' ∉ r1) (h2 : '.' ∉ r2) : r1 = r2 ∧ l1 = l2 := by
  have s1 : ('.' :: r1) <:+ (l2 ++ ('.' :: r2)) := ⟨l1, heq⟩
  have s2 : ('.' :: r2) <:+ (l2 ++ ('.' :: r2)) := ⟨l2, rfl⟩
  have hr : r1 = r2 := by
    rcases List.suffix_or_suffix_of_suffix s1 s2 with hs | hs
    · rcases List.suffix_cons_iff.mp hs with he | hs2
      · exact (List.cons.injEq _ _ _ _ ▸ he).2
      · exact absurd (hs2.subset (List.mem_cons_self '.' r1)) h2
    · rcases List.suffix_cons_iff.mp hs with he | hs2
      · exact ((List.cons.injEq _ _ _ _ ▸ he).2).symm
      · exact absurd (hs2.subset (List.mem_cons_self '.' r2)) h1
  subst hr
  exact ⟨rfl, List.append_cancel_right heq⟩

lemma matchAt_none_ext {q a b c : List Char} (hq : q ≠ [])
    (ha4 : a.length = 4) (hbD : b.all Char.isDigit = true)
    (hcD : c.all Char.isDigit = true) :
    matchAt (q ++ (a ++ ('.' :: (b ++ ('v' :: c))))) = none := by
  cases hm : matchAt (q ++ (a ++ ('.' :: (b ++ ('v' :: c))))) with
  | none => rfl
  | some g =>
    exfalso
    obtain ⟨d4, d, vp, hl, _, hlen4, hall4, _, hdD, hvt⟩ := matchAt_shape hm
    have hassoc : (q ++ a) ++ ('.' :: (b ++ ('v' :: c))) =
        d4 ++ ('.' :: (d ++ vp)) := by
      rw [← hl, List.append_assoc]
    have hnd1 : '.' ∉ (b ++ ('v' :: c)) := by
      intro hm2
      rcases List.mem_append.mp hm2 with hbm | hvm
      · exact not_dot_of_digits hbD hbm
      · rcases List.mem_cons.mp hvm with hv1 | hc2
        · exact absurd hv1 (by decide)
        · exact not_dot_of_digits hcD hc2
    have hnd2 : '.' ∉ (d ++ vp) := by
      intro hm2
      rcases List.mem_append.mp hm2 with hdm | hvp
      · exact not_dot_of_digits hdD hdm
      · exact not_dot_of_vTail hvt hvp
    obtain ⟨_, hleft⟩ := last_dot_eq hassoc hnd1 hnd2
    have hlq : (q ++ a).length = d4.length := by rw [hleft]
    rw [List.length_append, ha4, hlen4] at hlq
    have hq0 : q.length = 0 := by omega
    exact hq (List.length_eq_zero.mp hq0)

lemma findIDMatch_of_matchAt {l g : List Char} (h : matchAt l = some g) :
    findIDMatch l = some g := by
  cases l with
  | nil => exact absurd ((show matchAt [] = none from rfl) ▸ h) (by simp)
  | cons c rest => simp [findIDMatch, h]

lemma findIDMatch_step {c : Char} {rest : List Char}
    (h : matchAt (c :: rest) = none) :
    findIDMatch (c :: rest) = findIDMatch rest := by
  simp [findIDMatch, h]

lemma findIDMatch_core {a b c : List Char} (p : List Char) (ha4 : a.length = 4)
    (haD : a.all Char.isDigit = true) (hb : b.length = 4 ∨ b.length = 5)
    (hbD : b.all Char.isDigit = true) (hc : c ≠ [])
    (hcD : c.all Char.isDigit = true) :
    findIDMatch (p ++ (a ++ ('.' :: (b ++ ('v' :: c))))) =
      some (a ++ ('.' :: b)) := by
  induction p with
  | nil =>
    rw [List.nil_append]
    exact findIDMatch_of_matchAt (matchAt_core ha4 haD hb hbD hc hcD)
  | cons x rest ih =>
    have hnone : matchAt (x :: (rest ++ (a ++ ('.' :: (b ++ ('v' :: c)))))) = none := by
      rw [← List.cons_append]
      exact matchAt_none_ext (List.cons_ne_nil x rest) ha4 hbD hcD
    rw [List.cons_append, findIDMatch_step hnone]
    exact ih

lemma findIDMatch_sound {l g : List Char} (h : findIDMatch l = some g) :
    ∃ u d4 d vp, l = u ++ (d4 ++ ('.' :: (d ++ vp))) ∧ g = d4 ++ ('.' :: d) ∧
      d4.length = 4 ∧ d4.all Char.isDigit = true ∧
      (d.length = 4 ∨ d.length = 5) ∧ d.all Char.isDigit = true ∧
      vTail vp = true := by
  induction l with
  | nil => exact absurd h (by simp [findIDMatch])
  | cons c rest ih =>
    cases hm : matchAt (c :: rest) with
    | some g0 =>
      have hg : g0 = g := by
        have hfm := findIDMatch_of_matchAt hm
        rw [hfm] at h
        exact Option.some.inj h
      subst hg
      obtain ⟨d4, d, vp, hl, hgg, h4, hD, hd, hdD, hvt⟩ := matchAt_shape hm
      exact ⟨[], d4, d, vp, by simpa using hl, hgg, h4, hD, hd, hdD, hvt⟩
    | none =>
      rw [findIDMatch_step hm] at h
      obtain ⟨u, d4, d, vp, hl, hgg, h4, hD, hd, hdD, hvt⟩ := ih h
      exact ⟨c :: u, d4, d, vp, by simp [hl], hgg, h4, hD, hd, hdD, hvt⟩

lemma getLast?_append_some {l : List Char} {z : Char} (A : List Char)
    (h : l.getLast? = some z) : (A ++ l).getLast? = some z := by
  rw [List.getLast?_append, h]
  rfl

lemma getLast_digit_of_findIDMatch {l g : List Char}
    (h : findIDMatch l = some g) :
    ∃ ch, l.getLast? = some ch ∧ ch.isDigit = true := by
  obtain ⟨u, d4, d, vp, hl, _, _, _, hd, hdD, hvt⟩ := findIDMatch_sound h
  subst hl
  cases vp with
  | nil =>
    have hdne : d ≠ [] := by
      intro hnil
      subst hnil
      rcases hd with h4 | h5
      · simp at h4
      · simp at h5
    refine ⟨d.getLast hdne, ?_,
      List.all_eq_true.mp hdD _ (List.getLast_mem hdne)⟩
    have h1 : d.getLast? = some (d.getLast hdne) := List.getLast?_eq_getLast d hdne
    simp only [List.append_nil]
    exact getLast?_append_some u (getLast?_append_some d4
      (show (('.' :: d) : List Char).getLast? = _ from
        getLast?_append_some ['.'] h1))
  | cons v cc =>
    simp only [vTail, Bool.and_eq_true, beq_iff_eq, Bool.not_eq_true',
      List.isEmpty_eq_false] at hvt
    obtain ⟨⟨hv, hcne⟩, hccD⟩ := hvt
    subst hv
    have h1 : cc.getLast? = some (cc.getLast hcne) := List.getLast?_eq_getLast cc hcne
    refine ⟨cc.getLast hcne, ?_,
      List.all_eq_true.mp hccD _ (List.getLast_mem hcne)⟩
    refine getLast?_append_some u (getLast?_append_some d4 ?_)
    show (('.' :: (d ++ ('v' :: cc))) : List Char).getLast? = _
    refine getLast?_append_some ['.'] (getLast?_append_some d ?_)
    exact getLast?_append_some ['v'] h1

/-- C2: for every identifier of the form `prefix` + `<4 digits>.<4-5 digits>`
+ `v<digits>` — whatever the prefix, in particular any `scheme://.../` URL —
`extractArxivID` returns the identifier without the version suffix (so the
same item resolves to the same canonical id regardless of version); and for
any string in which the `<4 digits>.<4-5 digits>` pattern does not occur at
all, it returns the empty (failure) result — contrapositively, a non-empty
result exhibits the pattern inside the input. -/
theorem c2_extract_arxiv_id :
    (∀ p a b c : List Char,
      a.length = 4 → a.all Char.isDigit = true →
      (b.length = 4 ∨ b.length = 5) → b.all Char.isDigit = true →
      c ≠ [] → c.all Char.isDigit = true →
      extractArxivID (String.mk (p ++ (a ++ ('.' :: (b ++ ('v' :: c)))))) =
        String.mk (a ++ ('.' :: b))) ∧
    (∀ s : String, extractArxivID s ≠ "" →
      ∃ u d4 d rest, s.data = u ++ (d4 ++ ('.' :: (d ++ rest))) ∧
        d4.length = 4 ∧ d4.all Char.isDigit = true ∧
        (d.length = 4 ∨ d.length = 5) ∧ d.all Char.isDigit = true) := by
  constructor
  · intro p a b c ha4 haD hb hbD hc hcD
    unfold extractArxivID
    rw [show (String.mk (p ++ (a ++ ('.' :: (b ++ ('v' :: c)))))).data =
      p ++ (a ++ ('.' :: (b ++ ('v' :: c)))) from rfl]
    rw [findIDMatch_core p ha4 haD hb hbD hc hcD]
  · intro s h
    cases hm : findIDMatch s.data with
    | none => exact absurd (by unfold extractArxivID; rw [hm]) h
    | some g =>
      obtain ⟨u, d4, d, vp, hl, _, h4, hD, hd, hdD, _⟩ := findIDMatch_sound hm
      exact ⟨u, d4, d, vp, hl, h4, hD, hd, hdD⟩

/-- C2 witness: a concrete versioned URL strips to the bare id, and a
concrete string with a non-empty result contains the pattern. -/
theorem c2_extract_arxiv_id_witness :
    extractArxivID (String.mk ("http://arxiv.org/abs/".data ++
        ("2301".data ++ ('.' :: ("12345".data ++ ('v' :: "1".data)))))) =
      String.mk ("2301".data ++ ('.' :: "12345".data)) ∧
    (∃ u d4 d rest,
      ("x2301.12345" : String).data = u ++ (d4 ++ ('.' :: (d ++ rest))) ∧
      d4.length = 4 ∧ d4.all Char.isDigit = true ∧
      (d.length = 4 ∨ d.length = 5) ∧ d.all Char.isDigit = true) := by
  constructor
  · exact c2_extract_arxiv_id.1 "http://arxiv.org/abs/".data "2301".data
      "12345".data "1".data (by decide) (by decide) (by decide) (by decide)
      (by decide) (by decide)
  · exact c2_extract_arxiv_id.2 "x2301.12345" (by decide)

/-- C10 counterexample: the claim quantifies over every string in which the
pattern is followed by any other trailing text; in `1234.5678v1/2222.3333`
the occurrence `1234.5678` (with version suffix `v1`) is followed by a path
segment, yet `extractArxivID` returns `2222.3333`, not the empty failure
result the claim demands. -/
theorem c10_counterexample :
    extractArxivID "1234.5678v1/2222.3333" = "2222.3333" ∧
    "1234.5678v1/2222.3333" = "1234.5678" ++ "v1/" ++ "2222.3333" ∧
    extractArxivID "1234.5678v1/2222.3333" ≠ "" := by
  exact ⟨by decide, by decide, by decide⟩

/-- C10 amended: `extractArxivID` recognizes the pattern only at the very
end of the input — a non-empty result means the whole input decomposes as
arbitrary text, then `<4 digits>.<4-5 digits>`, then a (possibly empty)
`v<digits>` version suffix reaching the end of the string; in particular a
trailing slash after any text forces the empty (failure) result.  (Trailing
text after an occurrence only forces failure when the trailing text does not
itself end with another occurrence of the pattern.) -/
theorem c10_end_anchored :
    (∀ s : String, extractArxivID s ≠ "" →
      ∃ u d4 d vp, s.data = u ++ (d4 ++ ('.' :: (d ++ vp))) ∧
        d4.length = 4 ∧ d4.all Char.isDigit = true ∧
        (d.length = 4 ∨ d.length = 5) ∧ d.all Char.isDigit = true ∧
        vTail vp = true) ∧
    (∀ s : String, extractArxivID (s ++ "/") = "") := by
  constructor
  · intro s h
    cases hm : findIDMatch s.data with
    | none => exact absurd (by unfold extractArxivID; rw [hm]) h
    | some g =>
      obtain ⟨u, d4, d, vp, hl, _, h4, hD, hd, hdD, hvt⟩ := findIDMatch_sound hm
      exact ⟨u, d4, d, vp, hl, h4, hD, hd, hdD, hvt⟩
  · intro s
    cases hm : findIDMatch (s ++ "/").data with
    | none =>
      unfold extractArxivID
      rw [hm]
    | some g =>
      exfalso
      obtain ⟨ch, hlast, hdig⟩ := getLast_digit_of_findIDMatch hm
      have hdata : (s ++ "/").data = s.data ++ ['/'] := rfl
      rw [hdata] at hlast
      have hsl : (s.data ++ ['/']).getLast? = some '/' := by
        rw [List.getLast?_append]
        rfl
      rw [hsl] at hlast
      have hch : ch = '/' := (Option.some.inj hlast).symm
      subst hch
      exact absurd hdig (by decide)

/-- C10 amended witness: a concrete non-empty result decomposes with the
pattern at the very end, and a concrete slash-terminated URL fails. -/
theorem c10_end_anchored_witness :
    (∃ u d4 d vp,
      ("2301.12345" : String).data = u ++ (d4 ++ ('.' :: (d ++ vp))) ∧
      d4.length = 4 ∧ d4.all Char.isDigit = true ∧
      (d.length = 4 ∨ d.length = 5) ∧ d.all Char.isDigit = true ∧
      vTail vp = true) ∧
    extractArxivID ("http://arxiv.org/abs/2301.12345v1" ++ "/") = "" :=
  ⟨c10_end_anchored.1 "2301.12345" (by decide),
   c10_end_anchored.2 "http://arxiv.org/abs/2301.12345v1"⟩

lemma collapseWs_head {b : Char} (rest : List Char) (hb : isGoSpace b = false) :
    (collapseWs (b :: rest)).head? = some b := by
  cases rest with
  | nil => simp [collapseWs, hb]
  | cons r rs => simp [collapseWs, hb]

lemma goodWs_collapseWs (l : List Char) : goodWs (collapseWs l) = true := by
  induction l with
  | nil => rfl
  | cons a tail ih =>
    cases tail with
    | nil =>
      cases ha : isGoSpace a
      · simp [collapseWs, ha, goodWs]
      · simp only [collapseWs, ha, if_true]
        decide
    | cons b rest =>
      cases hab : (isGoSpace a && isGoSpace b)
      · cases ha : isGoSpace a
        · have hstep : collapseWs (a :: b :: rest) = a :: collapseWs (b :: rest) := by
            simp [collapseWs, hab, ha]
          rw [hstep]
          cases hM : collapseWs (b :: rest) with
          | nil => simp [goodWs, ha]
          | cons m ms =>
            have hMg : goodWs (m :: ms) = true := hM ▸ ih
            simp [goodWs, ha, hMg]
        · have hb : isGoSpace b = false := by
            cases hbv : isGoSpace b
            · rfl
            · rw [ha, hbv] at hab
              simp at hab
          have hstep : collapseWs (a :: b :: rest) = ' ' :: collapseWs (b :: rest) := by
            simp [collapseWs, ha, hb]
          rw [hstep]
          have hhead := collapseWs_head rest hb
          cases hM : collapseWs (b :: rest) with
          | nil => decide
          | cons m ms =>
            have hm : m = b := by
              rw [hM] at hhead
              exact Option.some.inj hhead
            have hMg : goodWs (m :: ms) = true := hM ▸ ih
            subst hm
            simp [goodWs, hMg, hb]
      · have hstep : collapseWs (a :: b :: rest) = collapseWs (b :: rest) := by
          simp [collapseWs, hab]
        rw [hstep]
        exact ih

lemma collapseWs_of_goodWs : ∀ {l : List Char}, goodWs l = true → collapseWs l = l := by
  intro l
  induction l with
  | nil => intro _; rfl
  | cons a tail ih =>
    intro h
    cases tail with
    | nil =>
      simp only [goodWs, Bool.or_eq_true, Bool.not_eq_true'] at h
      rcases h with ha | ha
      · simp [collapseWs, ha]
      · have ha2 : a = ' ' := by simpa using ha
        subst ha2
        decide
    | cons b rest =>
      simp only [goodWs, Bool.and_eq_true, Bool.or_eq_true,
        Bool.not_eq_true'] at h
      obtain ⟨hhead, htail⟩ := h
      have hrec := ih htail
      rcases hhead with ha | ⟨ha1, ha2⟩
      · have hab : (isGoSpace a && isGoSpace b) = false := by simp [ha]
        simp [collapseWs, hab, ha, hrec]
      · have ha3 : a = ' ' := by simpa using ha1
        subst ha3
        have hab : (isGoSpace ' ' && isGoSpace b) = false := by simp [ha2]
        simp [collapseWs, hab, hrec]

lemma goodWs_tail {a : Char} {l : List Char} (h : goodWs (a :: l) = true) :
    goodWs l = true := by
  cases l with
  | nil => rfl
  | cons b rest =>
    simp only [goodWs, Bool.and_eq_true] at h
    exact h.2

lemma goodWs_dropWhile (p : Char → Bool) :
    ∀ {l : List Char}, goodWs l = true → goodWs (l.dropWhile p) = true := by
  intro l
  induction l with
  | nil => intro h; exact h
  | cons a rest ih =>
    intro h
    rw [List.dropWhile_cons]
    by_cases hp : p a = true
    · rw [if_pos hp]
      exact ih (goodWs_tail h)
    · rw [if_neg hp]
      exact h

lemma trimRight_cons_shape (x : Char) (xs : List Char) :
    trimRight (x :: xs) = [] ∨ ∃ r, trimRight (x :: xs) = x :: r := by
  cases h : trimRight xs with
  | nil =>
    cases hx : isUniSpace x
    · right
      exact ⟨[], by simp [trimRight, h, hx]⟩
    · left
      simp [trimRight, h, hx]
  | cons m ms =>
    right
    exact ⟨m :: ms, by simp [trimRight, h]⟩

lemma goodWs_trimRight : ∀ {l : List Char}, goodWs l = true → goodWs (trimRight l) = true := by
  intro l
  induction l with
  | nil => intro h; exact h
  | cons c rest ih =>
    intro h
    have hrec := ih (goodWs_tail h)
    cases hTR : trimRight rest with
    | nil =>
      cases hc : isUniSpace c
      · rw [show trimRight (c :: rest) = [c] from by simp [trimRight, hTR, hc]]
        cases rest with
        | nil => simpa [goodWs] using h
        | cons b bs =>
          simp only [goodWs, Bool.and_eq_true, Bool.or_eq_true] at h
          rcases h.1 with h1 | h1
          · simp [goodWs, h1]
          · have hcq : c = ' ' := by simpa using h1.1
            simp [goodWs, hcq]
      · rw [show trimRight (c :: rest) = [] from by simp [trimRight, hTR, hc]]
        rfl
    | cons m ms =>
      rw [show trimRight (c :: rest) = c :: m :: ms from by simp [trimRight, hTR]]
      rw [hTR] at hrec
      cases rest with
      | nil => simp [trimRight] at hTR
      | cons b bs =>
        rcases trimRight_cons_shape b bs with hsh | ⟨r, hsh⟩
        · rw [hsh] at hTR
          simp at hTR
        · rw [hsh] at hTR
          have hm : b = m := (List.cons.injEq _ _ _ _ ▸ hTR).1
          subst hm
          simp only [goodWs, Bool.and_eq_true] at h ⊢
          exact ⟨h.1, hrec⟩

lemma trimRight_getLast : ∀ {l : List Char} (c : Char),
    (trimRight l).getLast? = some c → isUniSpace c = false := by
  intro l
  induction l with
  | nil => intro c h; simp [trimRight] at h
  | cons x xs ih =>
    intro c h
    cases hTR : trimRight xs with
    | nil =>
      cases hx : isUniSpace x
      · rw [show trimRight (x :: xs) = [x] from by simp [trimRight, hTR, hx]] at h
        simp at h
        rw [← h]
        exact hx
      · rw [show trimRight (x :: xs) = [] from by simp [trimRight, hTR, hx]] at h
        simp at h
    | cons m ms =>
      rw [show trimRight (x :: xs) = x :: m :: ms from by simp [trimRight, hTR],
        List.getLast?_cons_cons] at h
      exact ih c (by rw [hTR]; exact h)

lemma trimRight_cons_of_ne {x : Char} {xs : List Char} (h : trimRight xs ≠ []) :
    trimRight (x :: xs) = x :: trimRight xs := by
  cases hTR : trimRight xs with
  | nil => exact absurd hTR h
  | cons m ms => simp [trimRight, hTR]

lemma trimRight_of_getLast : ∀ {l : List Char},
    (∀ c, l.getLast? = some c → isUniSpace c = false) → trimRight l = l := by
  intro l
  induction l with
  | nil => intro _; rfl
  | cons x xs ih =>
    intro h
    cases xs with
    | nil =>
      have hx := h x (by simp)
      simp [trimRight, hx]
    | cons b bs =>
      have hxs : trimRight (b :: bs) = b :: bs :=
        ih fun c hc => h c (by rw [List.getLast?_cons_cons]; exact hc)
      rw [trimRight_cons_of_ne (by rw [hxs]; simp), hxs]

lemma head_dropWhile_false (p : Char → Bool) :
    ∀ (l : List Char) (c : Char), ((l.dropWhile p).head? = some c) → p c = false := by
  intro l
  induction l with
  | nil => intro c hc; simp at hc
  | cons a rest ih =>
    intro c hc
    rw [List.dropWhile_cons] at hc
    by_cases hp : p a = true
    · rw [if_pos hp] at hc
      exact ih c hc
    · rw [if_neg hp] at hc
      simp at hc
      subst hc
      cases hpa : p a
      · rfl
      · exact absurd hpa hp

lemma getLast?_of_suffix {l1 l2 : List Char} (h : l2 <:+ l1) (hne : l2 ≠ []) :
    l1.getLast? = l2.getLast? := by
  obtain ⟨u, rfl⟩ := h
  rw [List.getLast?_append, List.getLast?_eq_getLast l2 hne]
  rfl

lemma trimLeft_of_head {l : List Char}
    (h : ∀ c, l.head? = some c → isUniSpace c = false) : trimLeft l = l := by
  cases l with
  | nil => rfl
  | cons c rest =>
    have := h c rfl
    simp [trimLeft, List.dropWhile_cons, this]

/-- C8: the Text Normalizer `cleanText` — replace every maximal whitespace
run (newlines included) by one space, then trim leading/trailing whitespace
— is a pure total function and is idempotent:
`cleanText (cleanText s) = cleanText s` for every string; the spec's two
examples evaluate as stated. -/
theorem c8_clean_text_idempotent :
    (∀ s : String, cleanText (cleanText s) = cleanText s) ∧
    cleanText "  hello  world  " = "hello world" ∧
    cleanText "hello\n\nworld" = "hello world" := by
  refine ⟨?_, by decide, by decide⟩
  intro s
  show String.mk (trimLeft (trimRight (collapseWs
      (trimLeft (trimRight (collapseWs s.data)))))) =
    String.mk (trimLeft (trimRight (collapseWs s.data)))
  have hgood : goodWs (trimLeft (trimRight (collapseWs s.data))) = true :=
    goodWs_dropWhile _ (goodWs_trimRight (goodWs_collapseWs s.data))
  rw [collapseWs_of_goodWs hgood]
  by_cases htne : trimLeft (trimRight (collapseWs s.data)) = []
  · rw [htne]
    rfl
  · have hlast := getLast?_of_suffix
      (List.dropWhile_suffix (l := trimRight (collapseWs s.data)) isUniSpace) htne
    rw [trimRight_of_getLast fun c hc =>
      trimRight_getLast c (by rw [hlast]; exact hc)]
    have hfix : trimLeft (trimLeft (trimRight (collapseWs s.data))) =
        trimLeft (trimRight (collapseWs s.data)) :=
      trimLeft_of_head fun c hc =>
        head_dropWhile_false isUniSpace (trimRight (collapseWs s.data)) c hc
    rw [hfix]

end ArxivNest



